import Mathlib

set_option autoImplicit false

/-!
# A verification development for a CHIP-8 virtual machine

This file gives a shallow embedding, in Lean 4, of the core of a CHIP-8
emulator written in Go (`chip8` package: the `Chip8` state struct, `New`,
`LoadROMFromBytes` and `EmulateCycle`), together with theorems checking the
emulator's specification against that embedding.

Modelling conventions:
* Go fixed-size arrays (`Memory [4096]byte`, `V [16]byte`, `Stack [16]uint16`,
  `Display [32][64]bool`, `Keys [16]bool`) are modelled as total functions out
  of `Nat`; every access the Go code performs on a possibly out-of-range index
  is guarded by the same bound the Go runtime checks, and a failed bound check
  (a Go index-out-of-range panic, which aborts the process) is modelled as
  `none` / an aborted cycle.  Indices that are in range by construction in Go
  (register indices extracted with a 4-bit mask, loop counters bounded by the
  loop condition) are accessed directly.
* Machine integers are `Nat` with explicit reduction: `byte` arithmetic is
  `% 256`, `uint16` arithmetic is `% 65536`.  `a - b` on a byte is
  `(a + 256 - b) % 256`, `c.SP--` at `SP = 0` is `(SP + 255) % 256`.
* `rand.Intn 256` in the `Cxkk` instruction is modelled by an oracle argument
  `rnd` to the cycle function; the Go value `byte(rand.Intn(256))` is `rnd % 256`.
* `LoadROMFromBytes` mutates the receiver and returns an `error`; it is
  modelled as a function returning the final state together with
  `Option String` (`some` = non-nil error), so that partial mutation before an
  error return is observable, exactly as in the Go code.
-/

/-- The emulator state, mirroring the Go struct `Chip8` field for field. -/
structure Chip8 where
  /-- `V [16]byte` — the sixteen 8-bit registers `V0`–`VF`. -/
  V : Nat → Nat
  /-- `I uint16` — the index register. -/
  I : Nat
  /-- `PC uint16` — the program counter. -/
  PC : Nat
  /-- `SP byte` — the stack pointer. -/
  SP : Nat
  /-- `DT byte` — the delay timer. -/
  DT : Nat
  /-- `ST byte` — the sound timer. -/
  ST : Nat
  /-- `Memory [4096]byte`. -/
  Memory : Nat → Nat
  /-- `Stack [16]uint16`. -/
  Stack : Nat → Nat
  /-- `Display [32][64]bool`, row-major: `Display y x`. -/
  Display : Nat → Nat → Bool
  /-- `Keys [16]bool`. -/
  Keys : Nat → Bool
  /-- `DrawFlag bool`. -/
  DrawFlag : Bool

/-- `c.Memory[a]` as an rvalue with the Go bounds check: `none` is a panic. -/
def memRead (c : Chip8) (a : Nat) : Option Nat :=
  if a < 4096 then some (c.Memory a) else none

/-- `c.Memory[a] = v` with the Go bounds check: `none` is a panic. -/
def memWrite (c : Chip8) (a v : Nat) : Option Chip8 :=
  if a < 4096 then
    some { c with Memory := fun j => if j = a then v else c.Memory j }
  else none

/-- Total read of a memory byte (out-of-range reads as 0); used to state
theorems about in-range cells. -/
def memVal (c : Chip8) (a : Nat) : Nat :=
  if a < 4096 then c.Memory a else 0

/-- `c.Stack[i]` as an rvalue with the Go bounds check. -/
def stackRead (c : Chip8) (i : Nat) : Option Nat :=
  if i < 16 then some (c.Stack i) else none

/-- `c.Stack[i] = v` with the Go bounds check. -/
def stackWrite (c : Chip8) (i v : Nat) : Option Chip8 :=
  if i < 16 then
    some { c with Stack := fun j => if j = i then v else c.Stack j }
  else none

/-- `c.Keys[k]` as an rvalue with the Go bounds check (`k` is a register
value, which can exceed 15). -/
def keyRead (c : Chip8) (k : Nat) : Option Bool :=
  if k < 16 then some (c.Keys k) else none

/-- `c.V[i] = v`.  Every register index the Go code uses is produced by a
4-bit mask, hence in range; no bounds check is needed. -/
def setV (c : Chip8) (i v : Nat) : Chip8 :=
  { c with V := fun j => if j = i then v else c.V j }

/-- Total read of a display cell (out-of-range reads as `false`); used to
state theorems about in-range cells. -/
def dispVal (c : Chip8) (r cc : Nat) : Bool :=
  if r < 32 ∧ cc < 64 then c.Display r cc else false

/-- The `00E0` / load-time loop setting every display cell to `false`. -/
def clearDisplay (c : Chip8) : Chip8 :=
  { c with Display := fun _ _ => false }

/-- The 80-byte font table copied into memory by `New`. -/
def fontSet : List Nat :=
  [0xF0, 0x90, 0x90, 0x90, 0xF0,
   0x20, 0x60, 0x20, 0x20, 0x70,
   0xF0, 0x10, 0xF0, 0x80, 0xF0,
   0xF0, 0x10, 0xF0, 0x10, 0xF0,
   0x90, 0x90, 0xF0, 0x10, 0x10,
   0xF0, 0x80, 0xF0, 0x10, 0xF0,
   0xF0, 0x80, 0xF0, 0x90, 0xF0,
   0xF0, 0x10, 0x20, 0x40, 0x40,
   0xF0, 0x90, 0xF0, 0x90, 0xF0,
   0xF0, 0x90, 0xF0, 0x10, 0xF0,
   0xF0, 0x90, 0xF0, 0x90, 0x90,
   0xE0, 0x90, 0xE0, 0x90, 0xE0,
   0xF0, 0x80, 0x80, 0x80, 0xF0,
   0xE0, 0x90, 0x90, 0x90, 0xE0,
   0xF0, 0x80, 0xF0, 0x80, 0xF0,
   0xF0, 0x80, 0xF0, 0x80, 0x80]

/-- `New()`: the zero struct, the font set copied to the start of memory,
`PC = 0x200`, `DrawFlag = true`. -/
def New : Chip8 :=
  { V := fun _ => 0
    I := 0
    PC := 0x200
    SP := 0
    DT := 0
    ST := 0
    Memory := fun i => fontSet.getD i 0
    Stack := fun _ => 0
    Display := fun _ _ => false
    Keys := fun _ => false
    DrawFlag := true }

/-- `LoadROMFromBytes`: clear memory from `FontEndAddr` (0x50 = 80) up, then
reject a ROM longer than `4096 - 512` bytes, otherwise copy it to `0x200` and
reset the CPU state, the display and the registers.  The returned state
reflects all mutation performed up to the point of return, as in Go, where
the receiver is mutated in place; `some msg` models a non-nil `error`. -/
def LoadROMFromBytes (c : Chip8) (rom : List Nat) : Chip8 × Option String :=
  -- for i := FontEndAddr; i < MemorySize; i++ { c.Memory[i] = 0 }
  let c := { c with Memory := fun i => if 80 ≤ i ∧ i < 4096 then 0 else c.Memory i }
  if rom.length > 4096 - 512 then
    (c, some "ROM size exceeds available memory (max: 3584 bytes)")
  else
    -- for i := 0; i < len(rom); i++ { c.Memory[ProgramStartAddr+i] = rom[i] }
    let c := { c with Memory := fun i =>
      if 512 ≤ i ∧ i < 512 + rom.length then rom.getD (i - 512) 0 else c.Memory i }
    let c := { c with PC := 512, I := 0, SP := 0, DT := 0, ST := 0, DrawFlag := true }
    let c := clearDisplay c
    let c := { c with V := fun _ => 0 }
    (c, none)

/-- The `Fx0A` key scan: `for i := 0; i < KeyCount; i++ { if c.Keys[i] ... }`;
`some i` is the first pressed key index, `none` means no key pressed. -/
def scanKeys (c : Chip8) (i : Nat) : Option Nat :=
  if i < 16 then
    if c.Keys i then some i else scanKeys c (i + 1)
  else none
termination_by 16 - i

/-- The inner column loop of `Dxyn`: for `col` from the given value while
`col < 8`, breaking as soon as `x + col` falls off the right edge; a set
sprite bit first records a collision in `VF`, then XORs the display cell. -/
def drawCols (c : Chip8) (x yr sprite col : Nat) : Chip8 :=
  if col < 8 then
    if x + col < 64 then
      let c' :=
        if Nat.land sprite (128 >>> col) ≠ 0 then
          let old := c.Display yr (x + col)
          let c1 := if old then setV c 15 1 else c
          { c1 with Display := fun r cc =>
              if r = yr ∧ cc = x + col then !old else c1.Display r cc }
        else c
      drawCols c' x yr sprite (col + 1)
    else c
  else c
termination_by 8 - col

/-- The outer row loop of `Dxyn`: for `row` from the given value while
`row < height`, breaking as soon as `y + row` falls off the bottom edge;
each kept row reads its sprite byte at `Memory[I + row]` (a `uint16` index,
bounds-checked) and runs the column loop. -/
def drawRows (c : Chip8) (x y ii height row : Nat) : Option Chip8 :=
  if row < height then
    if y + row < 32 then do
      let sprite ← memRead c ((ii + row) % 65536)
      drawRows (drawCols c x (y + row) sprite 0) x y ii height (row + 1)
    else some c
  else some c
termination_by height - row

/-- The `Fx55` loop: `for i := 0; i <= x; i++ { c.Memory[c.I+i] = c.V[i] }`. -/
def storeRegs (c : Chip8) (x ii i : Nat) : Option Chip8 :=
  if i ≤ x then do
    let c' ← memWrite c ((ii + i) % 65536) (c.V i)
    storeRegs c' x ii (i + 1)
  else some c
termination_by x + 1 - i

/-- The `Fx65` loop: `for i := 0; i <= x; i++ { c.V[i] = c.Memory[c.I+i] }`. -/
def loadRegs (c : Chip8) (x ii i : Nat) : Option Chip8 :=
  if i ≤ x then do
    let v ← memRead c ((ii + i) % 65536)
    loadRegs (setV c i v) x ii (i + 1)
  else some c
termination_by x + 1 - i

/-- The decode-and-execute part of `EmulateCycle`, applied to the state whose
`PC` has already been advanced by 2.  The operand extractions are the Go mask
expressions written with `/` and `%`: `(opcode & 0x0F00) >> 8 = opcode / 256 % 16`,
`(opcode & 0x00F0) >> 4 = opcode / 16 % 16`, `opcode & 0x0FFF = opcode % 4096`,
`opcode & 0x00FF = opcode % 256`, `opcode & 0x000F = opcode % 16`, and the
outer switch scrutinee `(opcode & 0xF000) >> 12 = opcode / 4096`. -/
def execOpcode (rnd opcode : Nat) (c : Chip8) : Option Chip8 :=
  if opcode / 4096 = 0 then
    if opcode % 256 = 0xE0 then some { clearDisplay c with DrawFlag := true }
    else if opcode % 256 = 0xEE then do
      -- c.SP--; c.PC = c.Stack[c.SP]
      let a ← stackRead c ((c.SP + 255) % 256)
      some { c with SP := (c.SP + 255) % 256, PC := a }
    else some c
  else if opcode / 4096 = 1 then some { c with PC := opcode % 4096 }
  else if opcode / 4096 = 2 then do
    -- c.Stack[c.SP] = c.PC; c.SP++; c.PC = nnn
    let c' ← stackWrite c c.SP c.PC
    some { c' with SP := (c'.SP + 1) % 256, PC := opcode % 4096 }
  else if opcode / 4096 = 3 then
    some (if c.V (opcode / 256 % 16) = opcode % 256
          then { c with PC := (c.PC + 2) % 65536 } else c)
  else if opcode / 4096 = 4 then
    some (if c.V (opcode / 256 % 16) ≠ opcode % 256
          then { c with PC := (c.PC + 2) % 65536 } else c)
  else if opcode / 4096 = 5 then
    some (if c.V (opcode / 256 % 16) = c.V (opcode / 16 % 16)
          then { c with PC := (c.PC + 2) % 65536 } else c)
  else if opcode / 4096 = 6 then some (setV c (opcode / 256 % 16) (opcode % 256))
  else if opcode / 4096 = 7 then
    some (setV c (opcode / 256 % 16) ((c.V (opcode / 256 % 16) + opcode % 256) % 256))
  else if opcode / 4096 = 8 then
    if opcode % 16 = 0 then
      some (setV c (opcode / 256 % 16) (c.V (opcode / 16 % 16)))
    else if opcode % 16 = 1 then
      some (setV c (opcode / 256 % 16)
        (Nat.lor (c.V (opcode / 256 % 16)) (c.V (opcode / 16 % 16))))
    else if opcode % 16 = 2 then
      some (setV c (opcode / 256 % 16)
        (Nat.land (c.V (opcode / 256 % 16)) (c.V (opcode / 16 % 16))))
    else if opcode % 16 = 3 then
      some (setV c (opcode / 256 % 16)
        (Nat.xor (c.V (opcode / 256 % 16)) (c.V (opcode / 16 % 16))))
    else if opcode % 16 = 4 then
      -- sum computed before VF is written; c.V[x] = byte(sum) afterwards
      some (setV (setV c 15
          (if c.V (opcode / 256 % 16) + c.V (opcode / 16 % 16) > 255 then 1 else 0))
        (opcode / 256 % 16)
        ((c.V (opcode / 256 % 16) + c.V (opcode / 16 % 16)) % 256))
    else if opcode % 16 = 5 then
      -- VF written first, then c.V[x] -= c.V[y] on the updated registers
      let c1 := setV c 15 (if c.V (opcode / 256 % 16) > c.V (opcode / 16 % 16) then 1 else 0)
      some (setV c1 (opcode / 256 % 16)
        ((c1.V (opcode / 256 % 16) + 256 - c1.V (opcode / 16 % 16)) % 256))
    else if opcode % 16 = 6 then
      let c1 := setV c 15 (Nat.land (c.V (opcode / 256 % 16)) 1)
      some (setV c1 (opcode / 256 % 16) (c1.V (opcode / 256 % 16) / 2))
    else if opcode % 16 = 7 then
      let c1 := setV c 15 (if c.V (opcode / 16 % 16) > c.V (opcode / 256 % 16) then 1 else 0)
      some (setV c1 (opcode / 256 % 16)
        ((c1.V (opcode / 16 % 16) + 256 - c1.V (opcode / 256 % 16)) % 256))
    else if opcode % 16 = 14 then
      let c1 := setV c 15 (c.V (opcode / 256 % 16) / 128)
      some (setV c1 (opcode / 256 % 16) (c1.V (opcode / 256 % 16) * 2 % 256))
    else some c
  else if opcode / 4096 = 9 then
    some (if c.V (opcode / 256 % 16) ≠ c.V (opcode / 16 % 16)
          then { c with PC := (c.PC + 2) % 65536 } else c)
  else if opcode / 4096 = 10 then some { c with I := opcode % 4096 }
  else if opcode / 4096 = 11 then some { c with PC := (opcode % 4096 + c.V 0) % 65536 }
  else if opcode / 4096 = 12 then
    some (setV c (opcode / 256 % 16) (Nat.land (rnd % 256) (opcode % 256)))
  else if opcode / 4096 = 13 then do
    -- x, y are read before VF is cleared; I and height as in the source
    let c2 ← drawRows (setV c 15 0) (c.V (opcode / 256 % 16) % 64)
      (c.V (opcode / 16 % 16) % 32) c.I (opcode % 16) 0
    some { c2 with DrawFlag := true }
  else if opcode / 4096 = 14 then
    if opcode % 256 = 0x9E then do
      let b ← keyRead c (c.V (opcode / 256 % 16))
      some (if b then { c with PC := (c.PC + 2) % 65536 } else c)
    else if opcode % 256 = 0xA1 then do
      let b ← keyRead c (c.V (opcode / 256 % 16))
      some (if b then c else { c with PC := (c.PC + 2) % 65536 })
    else some c
  else if opcode / 4096 = 15 then
    if opcode % 256 = 0x07 then some (setV c (opcode / 256 % 16) c.DT)
    else if opcode % 256 = 0x0A then
      some (match scanKeys c 0 with
            | some i => setV c (opcode / 256 % 16) i
            | none => { c with PC := (c.PC + 65534) % 65536 })
    else if opcode % 256 = 0x15 then some { c with DT := c.V (opcode / 256 % 16) }
    else if opcode % 256 = 0x18 then some { c with ST := c.V (opcode / 256 % 16) }
    else if opcode % 256 = 0x1E then
      -- the compared sum and the stored sum are the same uint16 addition
      let c1 := setV c 15 (if (c.I + c.V (opcode / 256 % 16)) % 65536 > 4095 then 1 else 0)
      some { c1 with I := (c1.I + c1.V (opcode / 256 % 16)) % 65536 }
    else if opcode % 256 = 0x29 then
      -- uint16(c.V[x] * 5): the multiplication is byte arithmetic
      some { c with I := c.V (opcode / 256 % 16) * 5 % 256 }
    else if opcode % 256 = 0x33 then do
      let c1 ← memWrite c c.I (c.V (opcode / 256 % 16) / 100)
      let c2 ← memWrite c1 ((c1.I + 1) % 65536) (c1.V (opcode / 256 % 16) / 10 % 10)
      let c3 ← memWrite c2 ((c2.I + 2) % 65536) (c2.V (opcode / 256 % 16) % 10)
      some c3
    else if opcode % 256 = 0x55 then storeRegs c (opcode / 256 % 16) c.I 0
    else if opcode % 256 = 0x65 then loadRegs c (opcode / 256 % 16) c.I 0
    else some c
  else some c

/-- `EmulateCycle`: fetch the big-endian opcode at `PC` (two bounds-checked
byte reads; `hi<<8 | lo = hi*256 + lo` on bytes), advance `PC` by 2, then
decode and execute.  `rnd` is the oracle for `rand.Intn(256)`. -/
def EmulateCycle (rnd : Nat) (c : Chip8) : Option Chip8 := do
  let hi ← memRead c c.PC
  let lo ← memRead c ((c.PC + 1) % 65536)
  execOpcode rnd (hi * 256 + lo) { c with PC := (c.PC + 2) % 65536 }

/-- The opcode patterns carrying a defined instruction, mirroring the
`switch` structure of `EmulateCycle`; everything else falls through the
switch with no effect. -/
def DefinedOpcode (w : Nat) : Prop :=
  (w / 4096 = 0 ∧ (w % 256 = 0xE0 ∨ w % 256 = 0xEE)) ∨
  w / 4096 = 1 ∨ w / 4096 = 2 ∨ w / 4096 = 3 ∨ w / 4096 = 4 ∨
  w / 4096 = 5 ∨ w / 4096 = 6 ∨ w / 4096 = 7 ∨
  (w / 4096 = 8 ∧ (w % 16 ≤ 7 ∨ w % 16 = 14)) ∨
  w / 4096 = 9 ∨ w / 4096 = 10 ∨ w / 4096 = 11 ∨ w / 4096 = 12 ∨
  w / 4096 = 13 ∨
  (w / 4096 = 14 ∧ (w % 256 = 0x9E ∨ w % 256 = 0xA1)) ∨
  (w / 4096 = 15 ∧ (w % 256 = 0x07 ∨ w % 256 = 0x0A ∨ w % 256 = 0x15 ∨
    w % 256 = 0x18 ∨ w % 256 = 0x1E ∨ w % 256 = 0x29 ∨ w % 256 = 0x33 ∨
    w % 256 = 0x55 ∨ w % 256 = 0x65))

/-! ## Concrete states used by individual claims -/

/-- A freshly constructed machine with one program-region byte set nonzero,
to observe whether a failing load mutates memory. -/
def c1PreState : Chip8 :=
  { New with Memory := fun i => if i = 512 then 7 else New.Memory i }

/-- A fresh machine loaded with the two-byte program `00 EE`: a `RET`
executed with the stack pointer at 0. -/
def c2State : Chip8 := (LoadROMFromBytes New [0x00, 0xEE]).1

/-- A machine about to execute `F029` (index-to-font-sprite) with `V0 = 52`. -/
def c3State : Chip8 :=
  { New with
    Memory := fun i => if i = 512 then 0xF0 else if i = 513 then 0x29 else New.Memory i
    V := fun i => if i = 0 then 52 else New.V i }

/-- A machine about to execute `F329` (index-to-font-sprite) with `V3 = 10`. -/
def c3wState : Chip8 :=
  { New with
    Memory := fun i => if i = 512 then 0xF3 else if i = 513 then 0x29 else New.Memory i
    V := fun i => if i = 3 then 10 else New.V i }

/-- A machine about to execute `8F04` (`VF := VF + V0`) with `VF = 1`, `V0 = 1`:
the destination register is the flag register. -/
def c6State : Chip8 :=
  { New with
    Memory := fun i => if i = 512 then 0x8F else if i = 513 then 0x04 else New.Memory i
    V := fun i => if i = 15 then 1 else if i = 0 then 1 else New.V i }

/-- A machine about to execute `8014` (`V0 := V0 + V1`) with `V0 = 200`, `V1 = 100`. -/
def c6wState : Chip8 :=
  { New with
    Memory := fun i => if i = 512 then 0x80 else if i = 513 then 0x14 else New.Memory i
    V := fun i => if i = 0 then 200 else if i = 1 then 100 else New.V i }

/-- A fresh machine loaded with `22 04 00 00 00 EE`: a `CALL 0x204` at 512
whose target holds a `RET`. -/
def c10State : Chip8 := (LoadROMFromBytes New [0x22, 0x04, 0x00, 0x00, 0x00, 0xEE]).1

/-- A machine about to execute `F00A` (wait for key) with no key pressed. -/
def c5State : Chip8 :=
  { New with
    Memory := fun i => if i = 512 then 0xF0 else if i = 513 then 0x0A else New.Memory i }

/-- Collision predicate for one sprite row: some sprite bit at column
`col0` or later lands on the grid over an already-set display cell. -/
def ColHit (c : Chip8) (x yr sprite col0 : Nat) : Prop :=
  ∃ col, col0 ≤ col ∧ col < 8 ∧ x + col < 64 ∧
    Nat.land sprite (128 >>> col) ≠ 0 ∧ c.Display yr (x + col) = true

/-- Drawn-cell predicate for one sprite row: column `cc` receives a set
sprite bit from column `col0` or later (clipped at the right edge). -/
def ColDraw (x sprite col0 cc : Nat) : Prop :=
  ∃ col, col0 ≤ col ∧ col < 8 ∧ cc = x + col ∧ x + col < 64 ∧
    Nat.land sprite (128 >>> col) ≠ 0

/-- Collision predicate for the whole sprite from row `row0` on: some kept
(non-clipped) row scores a column collision against the display. -/
def RowHit (c : Chip8) (x y ii height row0 : Nat) : Prop :=
  ∃ row, row0 ≤ row ∧ row < height ∧ y + row < 32 ∧
    ColHit c x (y + row) (memVal c (ii + row)) 0

/-- Drawn-cell predicate for the whole sprite from row `row0` on. -/
def RowDraw (c : Chip8) (x y ii height row0 r cc : Nat) : Prop :=
  ∃ row, row0 ≤ row ∧ row < height ∧ y + row < 32 ∧ r = y + row ∧
    ColDraw x (memVal c (ii + row)) 0 cc

def c7State : Chip8 :=
  { New with
    Memory := fun i => if i = 512 then 0xD0 else if i = 513 then 0x11 else New.Memory i
    V := fun i => if i = 0 then 3 else if i = 1 then 5 else New.V i }

def c8State : Chip8 :=
  { New with
    Memory := fun i => if i = 512 then 0xD0 else if i = 513 then 0x01
      else if i = 514 then 0xD0 else if i = 515 then 0x01 else New.Memory i
    I := 600 }

def c8wState : Chip8 :=
  { New with
    Memory := fun i => if i = 512 then 0xD0 else if i = 513 then 0x11
      else if i = 514 then 0xD0 else if i = 515 then 0x11 else New.Memory i }


/-! ## Helper lemmas -/

theorem memRead_lt {c : Chip8} {a : Nat} (h : a < 4096) :
    memRead c a = some (c.Memory a) := by
  simp [memRead, h]

theorem memVal_lt {c : Chip8} {a : Nat} (h : a < 4096) :
    memVal c a = c.Memory a := by
  simp [memVal, h]

/-- A cycle whose fetch is in bounds is the decode/execute step applied to
the fetched opcode and the advanced state. -/
theorem EmulateCycle_eq_exec (rnd : Nat) (c : Chip8) (h : c.PC + 1 < 4096) :
    EmulateCycle rnd c =
      execOpcode rnd (memVal c c.PC * 256 + memVal c (c.PC + 1))
        { c with PC := (c.PC + 2) % 65536 } := by
  have h1 : c.PC < 4096 := by omega
  have h2 : (c.PC + 1) % 65536 = c.PC + 1 := Nat.mod_eq_of_lt (by omega)
  unfold EmulateCycle
  rw [h2, memRead_lt h1, memRead_lt h, memVal_lt h1, memVal_lt h]
  rfl

/-- Unfolding `LoadROMFromBytes` when the ROM is too large: the memory has
already been cleared above the font region when the error is returned. -/
theorem LoadROMFromBytes_pos (c : Chip8) (rom : List Nat)
    (h : rom.length > 4096 - 512) :
    LoadROMFromBytes c rom =
      ({ c with Memory := fun i => if 80 ≤ i ∧ i < 4096 then 0 else c.Memory i },
       some "ROM size exceeds available memory (max: 3584 bytes)") := by
  simp only [LoadROMFromBytes]
  rw [if_pos h]

/-- Unfolding `LoadROMFromBytes` on a fitting ROM. -/
theorem LoadROMFromBytes_neg (c : Chip8) (rom : List Nat)
    (h : ¬ rom.length > 4096 - 512) :
    LoadROMFromBytes c rom =
      ({ V := fun _ => 0
         I := 0
         PC := 512
         SP := 0
         DT := 0
         ST := 0
         Memory := fun i =>
           if 512 ≤ i ∧ i < 512 + rom.length then rom.getD (i - 512) 0
           else if 80 ≤ i ∧ i < 4096 then 0 else c.Memory i
         Stack := c.Stack
         Display := fun _ _ => false
         Keys := c.Keys
         DrawFlag := true }, none) := by
  simp only [LoadROMFromBytes, clearDisplay]
  rw [if_neg h]

/-! ## C1: a too-large load fails, but only after wiping memory above the font -/

/-- C1 (counterexample): loading 3585 bytes into a machine holding a nonzero
byte at address 512 returns an error, yet that memory byte has been zeroed —
the failure is not atomic: the clearing loop runs before the size check. -/
theorem load_too_large_clears_memory_cex :
    (LoadROMFromBytes c1PreState (List.replicate 3585 0)).2.isSome = true ∧
    c1PreState.Memory 512 = 7 ∧
    (LoadROMFromBytes c1PreState (List.replicate 3585 0)).1.Memory 512 = 0 := by
  have h : (List.replicate (3585:Nat) (0:Nat)).length > 4096 - 512 := by
    simp only [List.length_replicate]
    omega
  rw [LoadROMFromBytes_pos _ _ h]
  refine ⟨rfl, rfl, ?_⟩
  show (if 80 ≤ 512 ∧ 512 < 4096 then 0 else c1PreState.Memory 512) = 0
  rw [if_pos (by omega)]

/-- C1 (amended): for a ROM longer than 3584 bytes, `LoadROMFromBytes`
returns an error and leaves registers, index, program counter, stack
pointer, timers, stack, display, keys, draw flag and the font table
(memory below address 80) unchanged — but memory from address 80 through
4095 has already been cleared to 0 when the error is returned. -/
theorem load_too_large_error_state (c : Chip8) (rom : List Nat)
    (hlen : rom.length > 3584) :
    (LoadROMFromBytes c rom).2.isSome = true ∧
    (LoadROMFromBytes c rom).1.V = c.V ∧
    (LoadROMFromBytes c rom).1.I = c.I ∧
    (LoadROMFromBytes c rom).1.PC = c.PC ∧
    (LoadROMFromBytes c rom).1.SP = c.SP ∧
    (LoadROMFromBytes c rom).1.DT = c.DT ∧
    (LoadROMFromBytes c rom).1.ST = c.ST ∧
    (LoadROMFromBytes c rom).1.Stack = c.Stack ∧
    (LoadROMFromBytes c rom).1.Display = c.Display ∧
    (LoadROMFromBytes c rom).1.Keys = c.Keys ∧
    (LoadROMFromBytes c rom).1.DrawFlag = c.DrawFlag ∧
    (∀ a, a < 80 → (LoadROMFromBytes c rom).1.Memory a = c.Memory a) ∧
    (∀ a, 80 ≤ a → a < 4096 → (LoadROMFromBytes c rom).1.Memory a = 0) := by
  rw [LoadROMFromBytes_pos c rom (by omega)]
  refine ⟨rfl, rfl, rfl, rfl, rfl, rfl, rfl, rfl, rfl, rfl, rfl, ?_, ?_⟩
  · intro a ha
    show (if 80 ≤ a ∧ a < 4096 then 0 else c.Memory a) = c.Memory a
    rw [if_neg (by omega)]
  · intro a ha ha2
    show (if 80 ≤ a ∧ a < 4096 then 0 else c.Memory a) = 0
    rw [if_pos (by omega)]

/-- C1 witness: the amended statement applied to a fresh machine and a
3585-byte ROM. -/
theorem load_too_large_error_state_witness :
    (LoadROMFromBytes New (List.replicate 3585 0)).2.isSome = true :=
  (load_too_large_error_state New (List.replicate 3585 0)
    (by simp only [List.length_replicate]; omega)).1

/-! ## C4: a fitting load succeeds and resets the machine around the ROM -/

/-- C4: for a ROM of at most 3584 bytes, `LoadROMFromBytes` succeeds; the
program counter becomes 512, the registers, index, timers and stack pointer
become 0, the display is entirely false, memory `[512, 512+len)` holds the
ROM bytes, and the font table below address 80 is untouched. -/
theorem load_success_resets (c : Chip8) (rom : List Nat)
    (hlen : rom.length ≤ 3584) :
    (LoadROMFromBytes c rom).2 = none ∧
    (LoadROMFromBytes c rom).1.PC = 512 ∧
    (∀ i, (LoadROMFromBytes c rom).1.V i = 0) ∧
    (LoadROMFromBytes c rom).1.I = 0 ∧
    (LoadROMFromBytes c rom).1.DT = 0 ∧
    (LoadROMFromBytes c rom).1.ST = 0 ∧
    (LoadROMFromBytes c rom).1.SP = 0 ∧
    (∀ yy xx, (LoadROMFromBytes c rom).1.Display yy xx = false) ∧
    (∀ j, j < rom.length → (LoadROMFromBytes c rom).1.Memory (512 + j) = rom.getD j 0) ∧
    (∀ a, a < 80 → (LoadROMFromBytes c rom).1.Memory a = c.Memory a) := by
  rw [LoadROMFromBytes_neg c rom (by omega)]
  refine ⟨rfl, rfl, fun i => rfl, rfl, rfl, rfl, rfl, fun yy xx => rfl, ?_, ?_⟩
  · intro j hj
    show (if 512 ≤ 512 + j ∧ 512 + j < 512 + rom.length then rom.getD (512 + j - 512) 0
          else if 80 ≤ 512 + j ∧ 512 + j < 4096 then 0 else c.Memory (512 + j))
        = rom.getD j 0
    have hsub : 512 + j - 512 = j := by omega
    rw [hsub, if_pos (show 512 ≤ 512 + j ∧ 512 + j < 512 + rom.length by omega)]
  · intro a ha
    show (if 512 ≤ a ∧ a < 512 + rom.length then rom.getD (a - 512) 0
          else if 80 ≤ a ∧ a < 4096 then 0 else c.Memory a) = c.Memory a
    rw [if_neg (by omega), if_neg (by omega)]

/-- C4 witness: loading the three-byte ROM `[1, 2, 3]` into a fresh machine. -/
theorem load_success_resets_witness :
    (LoadROMFromBytes New [1, 2, 3]).2 = none :=
  (load_success_resets New [1, 2, 3] (by simp)).1

/-! ## C2: a cycle can abort — the out-of-bounds branch is reachable -/

/-- C2 (refuting the totality claim): on a freshly loaded machine whose
program is the single instruction `00EE` (return with stack pointer 0), the
cycle reaches `Stack[(0-1) mod 256] = Stack[255]`, an out-of-range access —
in Go a runtime panic that aborts the process, modelled here by `none`. -/
theorem emulateCycle_ret_underflow_aborts :
    EmulateCycle 0 c2State = none ∧
    c2State.SP = 0 ∧ c2State.PC = 512 ∧
    c2State.Memory 512 = 0x00 ∧ c2State.Memory 513 = 0xEE :=
  ⟨rfl, rfl, rfl, rfl, rfl⟩

/-! ## C3: index-to-font-sprite multiplies in byte arithmetic -/

/-- C3 (counterexample): with `V0 = 52`, executing `F029` sets the index
register to `52 * 5 % 256 = 4`, not `52 * 5 = 260` as the claim requires. -/
theorem font_index_wraps_cex :
    c3State.V 0 = 52 ∧
    (EmulateCycle 0 c3State).map Chip8.I = some 4 ∧
    (EmulateCycle 0 c3State).map Chip8.I ≠ some (52 * 5) := by
  have h : (EmulateCycle 0 c3State).map Chip8.I = some 4 := rfl
  refine ⟨rfl, h, ?_⟩
  rw [h]
  decide

/-- C3 (amended): executing `Fx29` sets the index register to
`V[x] * 5 % 256` — the multiplication is performed on a byte and wraps, so
it equals `V[x] * 5` only for register values up to 51. -/
theorem font_index_byte_mul (c : Chip8) (rnd rx : Nat) (hrx : rx < 16)
    (hpc : c.PC + 1 < 4096)
    (hhi : memVal c c.PC = 0xF0 + rx)
    (hlo : memVal c (c.PC + 1) = 0x29) :
    ∃ c', EmulateCycle rnd c = some c' ∧ c'.I = c.V rx * 5 % 256 := by
  rw [EmulateCycle_eq_exec rnd c hpc, hhi, hlo]
  have e1 : ((0xF0 + rx) * 256 + 0x29) / 4096 = 15 := by omega
  have e2 : ((0xF0 + rx) * 256 + 0x29) % 256 = 0x29 := by omega
  have e3 : ((0xF0 + rx) * 256 + 0x29) / 256 % 16 = rx := by omega
  unfold execOpcode
  simp only [e1, e2, e3]
  norm_num

/-- C3 witness: `F329` with `V3 = 10` sets the index register to 50. -/
theorem font_index_byte_mul_witness :
    ∃ c', EmulateCycle 0 c3wState = some c' ∧ c'.I = c3wState.V 3 * 5 % 256 :=
  font_index_byte_mul c3wState 0 3 (by omega) (by decide) rfl rfl

/-! ## C6: register-register add — carry flag, unless VF is the destination -/

/-- C6 (counterexample): executing `8F04` (`VF := VF + V0`) with
`VF = V0 = 1` leaves the flag register holding the sum 2; the claim requires
the flag register to be 0 because `1 + 1 ≤ 255`. -/
theorem add_carry_dest_vf_cex :
    c6State.V 15 = 1 ∧ c6State.V 0 = 1 ∧
    (EmulateCycle 0 c6State).map (fun c => c.V 15) = some 2 ∧
    (EmulateCycle 0 c6State).map (fun c => c.V 15) ≠ some 0 := by
  have h : (EmulateCycle 0 c6State).map (fun c => c.V 15) = some 2 := rfl
  refine ⟨rfl, rfl, h, ?_⟩
  rw [h]
  decide

/-- C6 (amended): for `8xy4` with destination register `x ≠ 15`, the
destination receives `(V[x] + V[y]) mod 256` and the flag register is 1 iff
`V[x] + V[y] > 255`, else 0.  (When `x = 15` the flag register is the
destination and the wrapped sum overwrites the carry flag.) -/
theorem add_carry_semantics (c : Chip8) (rnd rx ry : Nat)
    (hrx : rx < 16) (hry : ry < 16) (hne : rx ≠ 15)
    (hpc : c.PC + 1 < 4096)
    (hhi : memVal c c.PC = 0x80 + rx)
    (hlo : memVal c (c.PC + 1) = ry * 16 + 4) :
    ∃ c', EmulateCycle rnd c = some c' ∧
      c'.V rx = (c.V rx + c.V ry) % 256 ∧
      c'.V 15 = if c.V rx + c.V ry > 255 then 1 else 0 := by
  rw [EmulateCycle_eq_exec rnd c hpc, hhi, hlo]
  have e1 : ((0x80 + rx) * 256 + (ry * 16 + 4)) / 4096 = 8 := by omega
  have e3 : ((0x80 + rx) * 256 + (ry * 16 + 4)) / 256 % 16 = rx := by omega
  have e4 : ((0x80 + rx) * 256 + (ry * 16 + 4)) / 16 % 16 = ry := by omega
  have e5 : ((0x80 + rx) * 256 + (ry * 16 + 4)) % 16 = 4 := by omega
  have h15 : (15 : Nat) ≠ rx := fun h => hne h.symm
  unfold execOpcode
  simp only [e1, e3, e4, e5]
  norm_num [setV, h15]

/-- C6 witness: `8014` (`V0 := V0 + V1`) with `V0 = 200`, `V1 = 100`:
`V0` becomes 44 and the flag register becomes 1. -/
theorem add_carry_semantics_witness :
    ∃ c', EmulateCycle 0 c6wState = some c' ∧
      c'.V 0 = (c6wState.V 0 + c6wState.V 1) % 256 ∧
      c'.V 15 = if c6wState.V 0 + c6wState.V 1 > 255 then 1 else 0 :=
  add_carry_semantics c6wState 0 0 1 (by omega) (by omega) (by omega)
    (by decide) rfl rfl

/-! ## C9: opcodes matching no defined pattern are silent no-ops -/

set_option maxHeartbeats 3000000 in
/-- An opcode matching none of the dispatch patterns falls through the
switch: the state (whose `PC` was already advanced by the fetch) is
returned untouched. -/
theorem execOpcode_undefined (rnd w : Nat) (c : Chip8)
    (hdef : ¬ DefinedOpcode w) :
    execOpcode rnd w c = some c := by
  unfold DefinedOpcode at hdef
  have h16 : w / 4096 = 0 ∨ w / 4096 = 1 ∨ w / 4096 = 2 ∨ w / 4096 = 3 ∨
      w / 4096 = 4 ∨ w / 4096 = 5 ∨ w / 4096 = 6 ∨ w / 4096 = 7 ∨
      w / 4096 = 8 ∨ w / 4096 = 9 ∨ w / 4096 = 10 ∨ w / 4096 = 11 ∨
      w / 4096 = 12 ∨ w / 4096 = 13 ∨ w / 4096 = 14 ∨ w / 4096 = 15 ∨
      16 ≤ w / 4096 := by omega
  unfold execOpcode
  rcases h16 with h|h|h|h|h|h|h|h|h|h|h|h|h|h|h|h|h
  · rw [h, if_pos rfl, if_neg (show ¬w % 256 = 0xE0 by omega),
      if_neg (show ¬w % 256 = 0xEE by omega)]
  · exact absurd (by omega) hdef
  · exact absurd (by omega) hdef
  · exact absurd (by omega) hdef
  · exact absurd (by omega) hdef
  · exact absurd (by omega) hdef
  · exact absurd (by omega) hdef
  · exact absurd (by omega) hdef
  · rw [h]
    norm_num
    rw [if_neg (show ¬w % 16 = 0 by omega), if_neg (show ¬w % 16 = 1 by omega),
      if_neg (show ¬w % 16 = 2 by omega), if_neg (show ¬w % 16 = 3 by omega),
      if_neg (show ¬w % 16 = 4 by omega), if_neg (show ¬w % 16 = 5 by omega),
      if_neg (show ¬w % 16 = 6 by omega), if_neg (show ¬w % 16 = 7 by omega),
      if_neg (show ¬w % 16 = 14 by omega)]
  · exact absurd (by omega) hdef
  · exact absurd (by omega) hdef
  · exact absurd (by omega) hdef
  · exact absurd (by omega) hdef
  · exact absurd (by omega) hdef
  · rw [h]
    norm_num
    rw [if_neg (show ¬w % 256 = 0x9E by omega), if_neg (show ¬w % 256 = 0xA1 by omega)]
  · rw [h]
    norm_num
    rw [if_neg (show ¬w % 256 = 0x07 by omega), if_neg (show ¬w % 256 = 0x0A by omega),
      if_neg (show ¬w % 256 = 0x15 by omega), if_neg (show ¬w % 256 = 0x18 by omega),
      if_neg (show ¬w % 256 = 0x1E by omega), if_neg (show ¬w % 256 = 0x29 by omega),
      if_neg (show ¬w % 256 = 0x33 by omega), if_neg (show ¬w % 256 = 0x55 by omega),
      if_neg (show ¬w % 256 = 0x65 by omega)]
  · rw [if_neg (show ¬w / 4096 = 0 by omega), if_neg (show ¬w / 4096 = 1 by omega),
      if_neg (show ¬w / 4096 = 2 by omega), if_neg (show ¬w / 4096 = 3 by omega),
      if_neg (show ¬w / 4096 = 4 by omega), if_neg (show ¬w / 4096 = 5 by omega),
      if_neg (show ¬w / 4096 = 6 by omega), if_neg (show ¬w / 4096 = 7 by omega),
      if_neg (show ¬w / 4096 = 8 by omega), if_neg (show ¬w / 4096 = 9 by omega),
      if_neg (show ¬w / 4096 = 10 by omega), if_neg (show ¬w / 4096 = 11 by omega),
      if_neg (show ¬w / 4096 = 12 by omega), if_neg (show ¬w / 4096 = 13 by omega),
      if_neg (show ¬w / 4096 = 14 by omega), if_neg (show ¬w / 4096 = 15 by omega)]

/-- C9: executing one cycle on an opcode that matches no defined pattern
advances the program counter by exactly 2 and leaves every other state
field unchanged — a silent no-op, never an abort. -/
theorem unknown_opcode_noop (c : Chip8) (rnd : Nat)
    (hpc : c.PC + 1 < 4096)
    (hdef : ¬ DefinedOpcode (memVal c c.PC * 256 + memVal c (c.PC + 1))) :
    ∃ c', EmulateCycle rnd c = some c' ∧ c'.PC = c.PC + 2 ∧
      c'.V = c.V ∧ c'.I = c.I ∧ c'.SP = c.SP ∧ c'.DT = c.DT ∧ c'.ST = c.ST ∧
      c'.Memory = c.Memory ∧ c'.Stack = c.Stack ∧ c'.Display = c.Display ∧
      c'.Keys = c.Keys ∧ c'.DrawFlag = c.DrawFlag := by
  rw [EmulateCycle_eq_exec rnd c hpc, execOpcode_undefined rnd _ _ hdef]
  refine ⟨_, rfl, ?_, rfl, rfl, rfl, rfl, rfl, rfl, rfl, rfl, rfl, rfl⟩
  show (c.PC + 2) % 65536 = c.PC + 2
  omega

/-- C9 witness: a fresh machine fetches the opcode `0000` (undefined) and
advances the program counter from 512 to 514 changing nothing else. -/
theorem unknown_opcode_noop_witness :
    ∃ c', EmulateCycle 0 New = some c' ∧ c'.PC = New.PC + 2 ∧
      c'.V = New.V ∧ c'.I = New.I ∧ c'.SP = New.SP ∧ c'.DT = New.DT ∧
      c'.ST = New.ST ∧ c'.Memory = New.Memory ∧ c'.Stack = New.Stack ∧
      c'.Display = New.Display ∧ c'.Keys = New.Keys ∧ c'.DrawFlag = New.DrawFlag :=
  unknown_opcode_noop New 0 (by decide) (by unfold DefinedOpcode; decide)

/-! ## C10: call followed by return is a round trip -/

/-- `2nnn`: push the advanced program counter, bump the stack pointer, jump. -/
theorem cycle_call (rnd : Nat) (d : Chip8) (nnn : Nat)
    (hpc : d.PC + 1 < 4096) (hsp : d.SP < 16) (hnnn : nnn < 4096)
    (hhi : memVal d d.PC = 0x20 + nnn / 256)
    (hlo : memVal d (d.PC + 1) = nnn % 256) :
    EmulateCycle rnd d = some
      { d with
          PC := nnn
          SP := (d.SP + 1) % 256
          Stack := fun j => if j = d.SP then (d.PC + 2) % 65536 else d.Stack j } := by
  rw [EmulateCycle_eq_exec rnd d hpc, hhi, hlo]
  unfold execOpcode stackWrite
  rw [if_neg (show ¬((0x20 + nnn / 256) * 256 + nnn % 256) / 4096 = 0 by omega),
      if_neg (show ¬((0x20 + nnn / 256) * 256 + nnn % 256) / 4096 = 1 by omega),
      if_pos (show ((0x20 + nnn / 256) * 256 + nnn % 256) / 4096 = 2 by omega),
      if_pos hsp,
      show ((0x20 + nnn / 256) * 256 + nnn % 256) % 4096 = nnn by omega]
  rfl

/-- `00EE`: decrement the stack pointer (byte arithmetic) and pop. -/
theorem cycle_ret (rnd : Nat) (d : Chip8)
    (hpc : d.PC + 1 < 4096)
    (h0 : memVal d d.PC = 0x00) (h1 : memVal d (d.PC + 1) = 0xEE)
    (hsp : (d.SP + 255) % 256 < 16) :
    EmulateCycle rnd d = some
      { d with
          SP := (d.SP + 255) % 256
          PC := d.Stack ((d.SP + 255) % 256) } := by
  rw [EmulateCycle_eq_exec rnd d hpc, h0, h1]
  unfold execOpcode stackRead
  rw [if_pos (show (0x00 * 256 + 0xEE) / 4096 = 0 by norm_num),
      if_neg (show ¬(0x00 * 256 + 0xEE) % 256 = 0xE0 by norm_num),
      if_pos (show (0x00 * 256 + 0xEE) % 256 = 0xEE by norm_num),
      if_pos hsp]
  rfl

/-- C10: a call at address p followed by the return it targets restores the
stack pointer and sets the program counter to p + 2, leaving all stack
entries below the pointer unchanged. -/
theorem call_ret_roundtrip (c : Chip8) (rnd rnd2 nnn : Nat)
    (hpc : c.PC + 1 < 4096) (hsp : c.SP ≤ 15)
    (hnnn : nnn + 1 < 4096)
    (hhi : memVal c c.PC = 0x20 + nnn / 256)
    (hlo : memVal c (c.PC + 1) = nnn % 256)
    (hr0 : memVal c nnn = 0x00)
    (hr1 : memVal c (nnn + 1) = 0xEE) :
    ∃ c1 c2, EmulateCycle rnd c = some c1 ∧ EmulateCycle rnd2 c1 = some c2 ∧
      c2.PC = c.PC + 2 ∧ c2.SP = c.SP ∧
      (∀ i, i < c.SP → c2.Stack i = c.Stack i) := by
  have hsp16 : c.SP < 16 := by omega
  have h1 := cycle_call rnd c nnn hpc hsp16 (by omega) hhi hlo
  have h2 := cycle_ret rnd2
    { c with
        PC := nnn
        SP := (c.SP + 1) % 256
        Stack := fun j => if j = c.SP then (c.PC + 2) % 65536 else c.Stack j }
    hnnn hr0 hr1 (show ((c.SP + 1) % 256 + 255) % 256 < 16 by omega)
  refine ⟨_, _, h1, h2, ?_, ?_, ?_⟩
  · show (if ((c.SP + 1) % 256 + 255) % 256 = c.SP then (c.PC + 2) % 65536
          else c.Stack (((c.SP + 1) % 256 + 255) % 256)) = c.PC + 2
    rw [if_pos (show ((c.SP + 1) % 256 + 255) % 256 = c.SP by omega)]
    omega
  · show ((c.SP + 1) % 256 + 255) % 256 = c.SP
    omega
  · intro i hi
    show (if i = c.SP then (c.PC + 2) % 65536 else c.Stack i) = c.Stack i
    rw [if_neg (by omega)]

/-- C10 witness: `CALL 0x204` at 512 then `RET` lands back at 514 with the
stack pointer restored. -/
theorem call_ret_roundtrip_witness :
    ∃ c1 c2, EmulateCycle 0 c10State = some c1 ∧ EmulateCycle 0 c1 = some c2 ∧
      c2.PC = c10State.PC + 2 ∧ c2.SP = c10State.SP ∧
      (∀ i, i < c10State.SP → c2.Stack i = c10State.Stack i) :=
  call_ret_roundtrip c10State 0 0 516 (by decide) (by decide) (by decide)
    rfl rfl rfl rfl

/-! ## C5: wait-for-key blocks by rewinding, stores the lowest pressed key -/

/-- If no key is pressed, the key scan finds nothing (from any start index). -/
theorem scanKeys_none (c : Chip8) (h : ∀ i, i < 16 → c.Keys i = false) :
    ∀ j, scanKeys c j = none := by
  have key : ∀ fuel j, 16 - j ≤ fuel → scanKeys c j = none := by
    intro fuel
    induction fuel with
    | zero =>
      intro j hj
      unfold scanKeys
      rw [if_neg (by omega)]
    | succ n ih =>
      intro j hj
      unfold scanKeys
      by_cases hlt : j < 16
      · rw [if_pos hlt, h j hlt, if_neg Bool.false_ne_true]
        exact ih (j + 1) (by omega)
      · rw [if_neg hlt]
  exact fun j => key 16 j (by omega)

/-- The key scan returns the lowest-indexed pressed key. -/
theorem scanKeys_first (c : Chip8) (k : Nat) (hk : k < 16)
    (hkey : c.Keys k = true) (hlow : ∀ j, j < k → c.Keys j = false) :
    scanKeys c 0 = some k := by
  have key : ∀ fuel j, j ≤ k → k - j ≤ fuel → scanKeys c j = some k := by
    intro fuel
    induction fuel with
    | zero =>
      intro j hj hf
      have hjk : j = k := by omega
      subst hjk
      unfold scanKeys
      rw [if_pos (by omega), hkey, if_pos rfl]
    | succ n ih =>
      intro j hj hf
      by_cases hjk : j = k
      · subst hjk
        unfold scanKeys
        rw [if_pos (by omega), hkey, if_pos rfl]
      · unfold scanKeys
        rw [if_pos (by omega), hlow j (by omega), if_neg Bool.false_ne_true]
        exact ih (j + 1) (by omega) (by omega)
  exact key (k + 1) 0 (by omega) (by omega)

/-- C5: `Fx0A` (wait for key).  With no key pressed the cycle returns the
state unchanged (the program counter is advanced and then rewound); with at
least one key pressed, the lowest-indexed pressed key is stored in `V[x]`,
the program counter advances by 2 and nothing else changes. -/
theorem wait_key_semantics (c : Chip8) (rnd rx : Nat) (hrx : rx < 16)
    (hpc : c.PC + 1 < 4096)
    (hhi : memVal c c.PC = 0xF0 + rx)
    (hlo : memVal c (c.PC + 1) = 0x0A) :
    ((∀ i, i < 16 → c.Keys i = false) → EmulateCycle rnd c = some c) ∧
    (∀ k, k < 16 → c.Keys k = true → (∀ j, j < k → c.Keys j = false) →
      ∃ c', EmulateCycle rnd c = some c' ∧
        c'.V rx = k ∧ c'.PC = c.PC + 2 ∧
        (∀ i, i ≠ rx → c'.V i = c.V i) ∧
        c'.I = c.I ∧ c'.SP = c.SP ∧ c'.DT = c.DT ∧ c'.ST = c.ST ∧
        c'.Memory = c.Memory ∧ c'.Stack = c.Stack ∧
        c'.Display = c.Display ∧ c'.Keys = c.Keys ∧ c'.DrawFlag = c.DrawFlag) := by
  rw [EmulateCycle_eq_exec rnd c hpc, hhi, hlo]
  have e1 : ((0xF0 + rx) * 256 + 0x0A) / 4096 = 15 := by omega
  have e2 : ((0xF0 + rx) * 256 + 0x0A) % 256 = 0x0A := by omega
  have e3 : ((0xF0 + rx) * 256 + 0x0A) / 256 % 16 = rx := by omega
  unfold execOpcode
  simp only [e1, e2, e3]
  rw [if_neg (by decide : ¬(15:Nat) = 0), if_neg (by decide : ¬(15:Nat) = 1),
      if_neg (by decide : ¬(15:Nat) = 2), if_neg (by decide : ¬(15:Nat) = 3),
      if_neg (by decide : ¬(15:Nat) = 4), if_neg (by decide : ¬(15:Nat) = 5),
      if_neg (by decide : ¬(15:Nat) = 6), if_neg (by decide : ¬(15:Nat) = 7),
      if_neg (by decide : ¬(15:Nat) = 8), if_neg (by decide : ¬(15:Nat) = 9),
      if_neg (by decide : ¬(15:Nat) = 10), if_neg (by decide : ¬(15:Nat) = 11),
      if_neg (by decide : ¬(15:Nat) = 12), if_neg (by decide : ¬(15:Nat) = 13),
      if_neg (by decide : ¬(15:Nat) = 14), if_pos trivial,
      if_neg (by decide : ¬(10:Nat) = 7), if_pos trivial]
  constructor
  · intro h
    rw [scanKeys_none { c with PC := (c.PC + 2) % 65536 } h 0]
    show some ({ c with PC := ((c.PC + 2) % 65536 + 65534) % 65536 } : Chip8) = some c
    rw [show ((c.PC + 2) % 65536 + 65534) % 65536 = c.PC by omega]
  · intro k hk hkey hlow
    rw [scanKeys_first { c with PC := (c.PC + 2) % 65536 } k hk hkey hlow]
    refine ⟨_, rfl, ?_, ?_, ?_, rfl, rfl, rfl, rfl, rfl, rfl, rfl, rfl, rfl⟩
    · show (if rx = rx then k else c.V rx) = k
      rw [if_pos rfl]
    · show (c.PC + 2) % 65536 = c.PC + 2
      omega
    · intro i hi
      show (if i = rx then k else c.V i) = c.V i
      rw [if_neg hi]

/-- C5 witness: `F00A` on a fresh machine with no key pressed leaves the
machine exactly as it was. -/
theorem wait_key_semantics_witness :
    ((∀ i, i < 16 → c5State.Keys i = false) → EmulateCycle 0 c5State = some c5State) ∧
    (∀ k, k < 16 → c5State.Keys k = true → (∀ j, j < k → c5State.Keys j = false) →
      ∃ c', EmulateCycle 0 c5State = some c' ∧
        c'.V 0 = k ∧ c'.PC = c5State.PC + 2 ∧
        (∀ i, i ≠ 0 → c'.V i = c5State.V i) ∧
        c'.I = c5State.I ∧ c'.SP = c5State.SP ∧ c'.DT = c5State.DT ∧
        c'.ST = c5State.ST ∧ c'.Memory = c5State.Memory ∧
        c'.Stack = c5State.Stack ∧ c'.Display = c5State.Display ∧
        c'.Keys = c5State.Keys ∧ c'.DrawFlag = c5State.DrawFlag) :=
  wait_key_semantics c5State 0 0 (by omega) (by decide) rfl rfl

/-! ## C7 and C8: the draw-sprite instruction -/

theorem colHit_split (c : Chip8) (x yr sprite col0 : Nat) :
    ColHit c x yr sprite col0 ↔
      ((col0 < 8 ∧ x + col0 < 64 ∧ Nat.land sprite (128 >>> col0) ≠ 0 ∧
        c.Display yr (x + col0) = true) ∨ ColHit c x yr sprite (col0 + 1)) := by
  constructor
  · rintro ⟨col, h1, h2, h3, h4, h5⟩
    by_cases he : col = col0
    · subst he
      exact Or.inl ⟨h2, h3, h4, h5⟩
    · exact Or.inr ⟨col, by omega, h2, h3, h4, h5⟩
  · rintro (⟨h2, h3, h4, h5⟩ | ⟨col, h1, h2, h3, h4, h5⟩)
    · exact ⟨col0, Nat.le_refl _, h2, h3, h4, h5⟩
    · exact ⟨col, by omega, h2, h3, h4, h5⟩

theorem colDraw_split (x sprite col0 cc : Nat) :
    ColDraw x sprite col0 cc ↔
      ((col0 < 8 ∧ cc = x + col0 ∧ x + col0 < 64 ∧
        Nat.land sprite (128 >>> col0) ≠ 0) ∨ ColDraw x sprite (col0 + 1) cc) := by
  constructor
  · rintro ⟨col, h1, h2, h3, h4, h5⟩
    by_cases he : col = col0
    · subst he
      exact Or.inl ⟨h2, h3, h4, h5⟩
    · exact Or.inr ⟨col, by omega, h2, h3, h4, h5⟩
  · rintro (⟨h2, h3, h4, h5⟩ | ⟨col, h1, h2, h3, h4, h5⟩)
    · exact ⟨col0, Nat.le_refl _, h2, h3, h4, h5⟩
    · exact ⟨col, by omega, h2, h3, h4, h5⟩

theorem colHit_congr (c c' : Chip8) (x yr sprite col0 : Nat)
    (h : ∀ col, col0 ≤ col → col < 8 →
      c'.Display yr (x + col) = c.Display yr (x + col)) :
    ColHit c' x yr sprite col0 ↔ ColHit c x yr sprite col0 := by
  constructor
  · rintro ⟨col, h1, h2, h3, h4, h5⟩
    exact ⟨col, h1, h2, h3, h4, by rw [← h col h1 h2]; exact h5⟩
  · rintro ⟨col, h1, h2, h3, h4, h5⟩
    exact ⟨col, h1, h2, h3, h4, by rw [h col h1 h2]; exact h5⟩

/-- One unfolding of the column loop, with the intermediate lets expanded. -/
theorem drawCols_step (c : Chip8) (x yr sprite col : Nat) :
    drawCols c x yr sprite col =
      if col < 8 then
        if x + col < 64 then
          drawCols
            (if Nat.land sprite (128 >>> col) ≠ 0 then
              { (if c.Display yr (x + col) then setV c 15 1 else c) with
                  Display := fun r cc =>
                    if r = yr ∧ cc = x + col then !(c.Display yr (x + col))
                    else (if c.Display yr (x + col) then setV c 15 1 else c).Display r cc }
            else c)
            x yr sprite (col + 1)
        else c
      else c := by
  rw [drawCols.eq_def]

/-- Full characterisation of the column loop: the frame (everything except
`VF` and the display row), the collision flag, and the per-cell XOR. -/
theorem drawCols_spec (fuel : Nat) :
    ∀ col0 c x yr sprite, 8 - col0 ≤ fuel →
      ((drawCols c x yr sprite col0).I = c.I ∧
       (drawCols c x yr sprite col0).PC = c.PC ∧
       (drawCols c x yr sprite col0).SP = c.SP ∧
       (drawCols c x yr sprite col0).DT = c.DT ∧
       (drawCols c x yr sprite col0).ST = c.ST ∧
       (drawCols c x yr sprite col0).Memory = c.Memory ∧
       (drawCols c x yr sprite col0).Stack = c.Stack ∧
       (drawCols c x yr sprite col0).Keys = c.Keys ∧
       (drawCols c x yr sprite col0).DrawFlag = c.DrawFlag ∧
       (∀ j, j ≠ 15 → (drawCols c x yr sprite col0).V j = c.V j)) ∧
      ((ColHit c x yr sprite col0 → (drawCols c x yr sprite col0).V 15 = 1) ∧
       (¬ ColHit c x yr sprite col0 →
         (drawCols c x yr sprite col0).V 15 = c.V 15)) ∧
      (∀ r cc,
        ((r = yr ∧ ColDraw x sprite col0 cc) →
          (drawCols c x yr sprite col0).Display r cc = !(c.Display r cc)) ∧
        (¬ (r = yr ∧ ColDraw x sprite col0 cc) →
          (drawCols c x yr sprite col0).Display r cc = c.Display r cc)) := by
  induction fuel with
  | zero =>
    intro col0 c x yr sprite hf
    rw [drawCols_step, if_neg (show ¬col0 < 8 by omega)]
    refine ⟨⟨rfl, rfl, rfl, rfl, rfl, rfl, rfl, rfl, rfl, fun j hj => rfl⟩,
      ⟨?_, fun h => rfl⟩, fun r cc => ⟨?_, fun h => rfl⟩⟩
    · rintro ⟨col, h1, h2, -⟩
      omega
    · rintro ⟨-, col, h1, h2, -⟩
      omega
  | succ n ih =>
    intro col0 c x yr sprite hf
    by_cases hcol : col0 < 8
    case neg =>
      rw [drawCols_step, if_neg hcol]
      refine ⟨⟨rfl, rfl, rfl, rfl, rfl, rfl, rfl, rfl, rfl, fun j hj => rfl⟩,
        ⟨?_, fun h => rfl⟩, fun r cc => ⟨?_, fun h => rfl⟩⟩
      · rintro ⟨col, h1, h2, -⟩
        omega
      · rintro ⟨-, col, h1, h2, -⟩
        omega
    case pos =>
      rw [drawCols_step, if_pos hcol]
      by_cases h64 : x + col0 < 64
      case neg =>
        rw [if_neg h64]
        refine ⟨⟨rfl, rfl, rfl, rfl, rfl, rfl, rfl, rfl, rfl, fun j hj => rfl⟩,
          ⟨?_, fun h => rfl⟩, fun r cc => ⟨?_, fun h => rfl⟩⟩
        · rintro ⟨col, h1, h2, h3, -⟩
          omega
        · rintro ⟨-, col, h1, h2, h3, h4, -⟩
          omega
      case pos =>
        rw [if_pos h64]
        by_cases hbit : Nat.land sprite (128 >>> col0) ≠ 0
        case neg =>
          rw [if_neg hbit]
          obtain ⟨ha, ⟨hb1, hb2⟩, hc⟩ := ih (col0 + 1) c x yr sprite (by omega)
          refine ⟨ha, ⟨?_, ?_⟩, fun r cc => ⟨?_, ?_⟩⟩
          · intro h
            rcases (colHit_split c x yr sprite col0).mp h with ⟨-, -, h4, -⟩ | hh
            · exact absurd h4 hbit
            · exact hb1 hh
          · intro h
            exact hb2 fun hh =>
              h ((colHit_split c x yr sprite col0).mpr (Or.inr hh))
          · rintro ⟨hr, hdraw⟩
            rcases (colDraw_split x sprite col0 cc).mp hdraw with ⟨-, -, -, h4⟩ | hh
            · exact absurd h4 hbit
            · exact (hc r cc).1 ⟨hr, hh⟩
          · intro h
            exact (hc r cc).2 fun hh =>
              h ⟨hh.1, (colDraw_split x sprite col0 cc).mpr (Or.inr hh.2)⟩
        case pos =>
          rw [if_pos hbit]
          by_cases hold : c.Display yr (x + col0) = true
          case pos =>
            rw [if_pos hold]
            obtain ⟨⟨kI, kPC, kSP, kDT, kST, kMem, kStk, kKey, kDF, kV⟩,
                ⟨kVF1, kVF2⟩, kD⟩ :=
              ih (col0 + 1)
                { setV c 15 1 with Display := fun r cc =>
                    if r = yr ∧ cc = x + col0 then !(c.Display yr (x + col0))
                    else (setV c 15 1).Display r cc }
                x yr sprite (by omega)
            have hdone : ∀ hh : Prop, hh →
                (drawCols
                  { setV c 15 1 with Display := fun r cc =>
                      if r = yr ∧ cc = x + col0 then !(c.Display yr (x + col0))
                      else (setV c 15 1).Display r cc }
                  x yr sprite (col0 + 1)).V 15 = 1 := by
              intro hh _
              by_cases hch : ColHit
                  { setV c 15 1 with Display := fun r cc =>
                      if r = yr ∧ cc = x + col0 then !(c.Display yr (x + col0))
                      else (setV c 15 1).Display r cc }
                  x yr sprite (col0 + 1)
              · exact kVF1 hch
              · exact kVF2 hch
            refine ⟨⟨kI, kPC, kSP, kDT, kST, kMem, kStk, kKey, kDF, ?_⟩,
              ⟨fun h => hdone True trivial, fun h =>
                absurd ⟨col0, Nat.le_refl _, hcol, h64, hbit, hold⟩ h⟩,
              fun r cc => ⟨?_, ?_⟩⟩
            · intro j hj
              refine (kV j hj).trans ?_
              show (if j = 15 then 1 else c.V j) = c.V j
              rw [if_neg hj]
            · rintro ⟨hr, hdraw⟩
              subst hr
              rcases (colDraw_split x sprite col0 cc).mp hdraw with
                ⟨-, h2, -, -⟩ | hh
              · have hnd : ¬ (r = r ∧ ColDraw x sprite (col0 + 1) cc) := by
                  rintro ⟨-, col, hc1, hc2, hc3, -⟩
                  omega
                refine ((kD r cc).2 hnd).trans ?_
                show (if r = r ∧ cc = x + col0 then !(c.Display r (x + col0))
                      else c.Display r cc) = !(c.Display r cc)
                rw [if_pos ⟨rfl, h2⟩, h2]
              · refine ((kD r cc).1 ⟨rfl, hh⟩).trans ?_
                have hne : ¬ (r = r ∧ cc = x + col0) := by
                  rintro ⟨-, hcc⟩
                  obtain ⟨col, hc1, -, hc3, -⟩ := hh
                  omega
                show (!(if r = r ∧ cc = x + col0 then !(c.Display r (x + col0))
                      else c.Display r cc)) = !(c.Display r cc)
                rw [if_neg hne]
            · intro hn
              have hn2 : ¬ (r = yr ∧ ColDraw x sprite (col0 + 1) cc) := fun hh =>
                hn ⟨hh.1, (colDraw_split x sprite col0 cc).mpr (Or.inr hh.2)⟩
              refine ((kD r cc).2 hn2).trans ?_
              show (if r = yr ∧ cc = x + col0 then !(c.Display yr (x + col0))
                    else c.Display r cc) = c.Display r cc
              rw [if_neg fun hh =>
                hn ⟨hh.1, col0, Nat.le_refl _, hcol, hh.2, h64, hbit⟩]
          case neg =>
            rw [if_neg hold]
            obtain ⟨⟨kI, kPC, kSP, kDT, kST, kMem, kStk, kKey, kDF, kV⟩,
                ⟨kVF1, kVF2⟩, kD⟩ :=
              ih (col0 + 1)
                { c with Display := fun r cc =>
                    if r = yr ∧ cc = x + col0 then !(c.Display yr (x + col0))
                    else c.Display r cc }
                x yr sprite (by omega)
            have hdisp : ∀ col', col0 + 1 ≤ col' → col' < 8 →
                ({ c with Display := fun r cc =>
                    if r = yr ∧ cc = x + col0 then !(c.Display yr (x + col0))
                    else c.Display r cc } : Chip8).Display yr (x + col')
                  = c.Display yr (x + col') := by
              intro col' hc1 hc2
              show (if yr = yr ∧ x + col' = x + col0 then !(c.Display yr (x + col0))
                    else c.Display yr (x + col')) = c.Display yr (x + col')
              rw [if_neg (by rintro ⟨-, hh⟩; omega)]
            have hcongr := colHit_congr c
              { c with Display := fun r cc =>
                  if r = yr ∧ cc = x + col0 then !(c.Display yr (x + col0))
                  else c.Display r cc }
              x yr sprite (col0 + 1) hdisp
            refine ⟨⟨kI, kPC, kSP, kDT, kST, kMem, kStk, kKey, kDF,
                fun j hj => kV j hj⟩, ⟨?_, ?_⟩, fun r cc => ⟨?_, ?_⟩⟩
            · intro h
              rcases (colHit_split c x yr sprite col0).mp h with ⟨-, -, -, h5⟩ | hh
              · exact absurd h5 hold
              · exact kVF1 (hcongr.mpr hh)
            · intro h
              exact kVF2 fun hh => h
                ((colHit_split c x yr sprite col0).mpr (Or.inr (hcongr.mp hh)))
            · rintro ⟨hr, hdraw⟩
              subst hr
              rcases (colDraw_split x sprite col0 cc).mp hdraw with
                ⟨-, h2, -, -⟩ | hh
              · have hnd : ¬ (r = r ∧ ColDraw x sprite (col0 + 1) cc) := by
                  rintro ⟨-, col, hc1, hc2, hc3, -⟩
                  omega
                refine ((kD r cc).2 hnd).trans ?_
                show (if r = r ∧ cc = x + col0 then !(c.Display r (x + col0))
                      else c.Display r cc) = !(c.Display r cc)
                rw [if_pos ⟨rfl, h2⟩, h2]
              · refine ((kD r cc).1 ⟨rfl, hh⟩).trans ?_
                have hne : ¬ (r = r ∧ cc = x + col0) := by
                  rintro ⟨-, hcc⟩
                  obtain ⟨col, hc1, -, hc3, -⟩ := hh
                  omega
                show (!(if r = r ∧ cc = x + col0 then !(c.Display r (x + col0))
                      else c.Display r cc)) = !(c.Display r cc)
                rw [if_neg hne]
            · intro hn
              have hn2 : ¬ (r = yr ∧ ColDraw x sprite (col0 + 1) cc) := fun hh =>
                hn ⟨hh.1, (colDraw_split x sprite col0 cc).mpr (Or.inr hh.2)⟩
              refine ((kD r cc).2 hn2).trans ?_
              show (if r = yr ∧ cc = x + col0 then !(c.Display yr (x + col0))
                    else c.Display r cc) = c.Display r cc
              rw [if_neg fun hh =>
                hn ⟨hh.1, col0, Nat.le_refl _, hcol, hh.2, h64, hbit⟩]

theorem rowHit_split (c : Chip8) (x y ii height row0 : Nat) :
    RowHit c x y ii height row0 ↔
      ((row0 < height ∧ y + row0 < 32 ∧
        ColHit c x (y + row0) (memVal c (ii + row0)) 0) ∨
       RowHit c x y ii height (row0 + 1)) := by
  constructor
  · rintro ⟨row, h1, h2, h3, h4⟩
    by_cases he : row = row0
    · subst he
      exact Or.inl ⟨h2, h3, h4⟩
    · exact Or.inr ⟨row, by omega, h2, h3, h4⟩
  · rintro (⟨h2, h3, h4⟩ | ⟨row, h1, h2, h3, h4⟩)
    · exact ⟨row0, Nat.le_refl _, h2, h3, h4⟩
    · exact ⟨row, by omega, h2, h3, h4⟩

theorem rowDraw_split (c : Chip8) (x y ii height row0 r cc : Nat) :
    RowDraw c x y ii height row0 r cc ↔
      ((row0 < height ∧ y + row0 < 32 ∧ r = y + row0 ∧
        ColDraw x (memVal c (ii + row0)) 0 cc) ∨
       RowDraw c x y ii height (row0 + 1) r cc) := by
  constructor
  · rintro ⟨row, h1, h2, h3, h4, h5⟩
    by_cases he : row = row0
    · subst he
      exact Or.inl ⟨h2, h3, h4, h5⟩
    · exact Or.inr ⟨row, by omega, h2, h3, h4, h5⟩
  · rintro (⟨h2, h3, h4, h5⟩ | ⟨row, h1, h2, h3, h4, h5⟩)
    · exact ⟨row0, Nat.le_refl _, h2, h3, h4, h5⟩
    · exact ⟨row, by omega, h2, h3, h4, h5⟩

/-- One unfolding of the row loop. -/
theorem drawRows_step (c : Chip8) (x y ii height row : Nat) :
    drawRows c x y ii height row =
      if row < height then
        if y + row < 32 then
          (memRead c ((ii + row) % 65536)).bind fun sprite =>
            drawRows (drawCols c x (y + row) sprite 0) x y ii height (row + 1)
        else some c
      else some c := by
  rw [drawRows.eq_def]
  rfl

/-- Full characterisation of the row loop: it succeeds when the sprite rows
lie inside memory, preserves the frame, computes the collision flag, and
XORs exactly the drawn cells. -/
theorem drawRows_spec (fuel : Nat) :
    ∀ row0 c x y ii height, height - row0 ≤ fuel → ii + height ≤ 4096 →
      ∃ c', drawRows c x y ii height row0 = some c' ∧
        (c'.I = c.I ∧ c'.PC = c.PC ∧ c'.SP = c.SP ∧ c'.DT = c.DT ∧
         c'.ST = c.ST ∧ c'.Memory = c.Memory ∧ c'.Stack = c.Stack ∧
         c'.Keys = c.Keys ∧ c'.DrawFlag = c.DrawFlag ∧
         (∀ j, j ≠ 15 → c'.V j = c.V j)) ∧
        ((RowHit c x y ii height row0 → c'.V 15 = 1) ∧
         (¬ RowHit c x y ii height row0 → c'.V 15 = c.V 15)) ∧
        (∀ r cc,
          (RowDraw c x y ii height row0 r cc →
            c'.Display r cc = !(c.Display r cc)) ∧
          (¬ RowDraw c x y ii height row0 r cc →
            c'.Display r cc = c.Display r cc)) := by
  induction fuel with
  | zero =>
    intro row0 c x y ii height hf hii
    refine ⟨c, by rw [drawRows_step, if_neg (show ¬row0 < height by omega)],
      ⟨rfl, rfl, rfl, rfl, rfl, rfl, rfl, rfl, rfl, fun j hj => rfl⟩,
      ⟨?_, fun h => rfl⟩, fun r cc => ⟨?_, fun h => rfl⟩⟩
    · rintro ⟨row, h1, h2, -⟩
      omega
    · rintro ⟨row, h1, h2, -⟩
      omega
  | succ n ih =>
    intro row0 c x y ii height hf hii
    by_cases hrow : row0 < height
    case neg =>
      refine ⟨c, by rw [drawRows_step, if_neg hrow],
        ⟨rfl, rfl, rfl, rfl, rfl, rfl, rfl, rfl, rfl, fun j hj => rfl⟩,
        ⟨?_, fun h => rfl⟩, fun r cc => ⟨?_, fun h => rfl⟩⟩
      · rintro ⟨row, h1, h2, -⟩
        omega
      · rintro ⟨row, h1, h2, -⟩
        omega
    case pos =>
      by_cases hy : y + row0 < 32
      case neg =>
        refine ⟨c, by rw [drawRows_step, if_pos hrow, if_neg hy],
          ⟨rfl, rfl, rfl, rfl, rfl, rfl, rfl, rfl, rfl, fun j hj => rfl⟩,
          ⟨?_, fun h => rfl⟩, fun r cc => ⟨?_, fun h => rfl⟩⟩
        · rintro ⟨row, h1, h2, h3, -⟩
          omega
        · rintro ⟨row, h1, h2, h3, -⟩
          omega
      case pos =>
        have hmem : ii + row0 < 4096 := by omega
        have hm65 : (ii + row0) % 65536 = ii + row0 := Nat.mod_eq_of_lt (by omega)
        obtain ⟨⟨aI, aPC, aSP, aDT, aST, aMem, aStk, aKey, aDF, aV⟩,
            ⟨b1, b2⟩, hC⟩ :=
          drawCols_spec 8 0 c x (y + row0) (c.Memory (ii + row0)) (by omega)
        obtain ⟨c', hEq, ⟨aI2, aPC2, aSP2, aDT2, aST2, aMem2, aStk2, aKey2,
            aDF2, aV2⟩, ⟨b1a, b2a⟩, hC2⟩ :=
          ih (row0 + 1) (drawCols c x (y + row0) (c.Memory (ii + row0)) 0)
            x y ii height (by omega) hii
        have hmemEq : ∀ a : Nat,
            memVal (drawCols c x (y + row0) (c.Memory (ii + row0)) 0) a
              = memVal c a := by
          intro a
          unfold memVal
          rw [aMem]
        have hsame : ∀ row, row0 + 1 ≤ row →
            (drawCols c x (y + row0) (c.Memory (ii + row0)) 0).Display (y + row)
              = c.Display (y + row) := by
          intro row hr
          funext cc
          exact (hC (y + row) cc).2 (by rintro ⟨hh, -⟩; omega)
        have hRH : RowHit (drawCols c x (y + row0) (c.Memory (ii + row0)) 0)
            x y ii height (row0 + 1) ↔ RowHit c x y ii height (row0 + 1) := by
          unfold RowHit
          constructor <;> rintro ⟨row, h1, h2, h3, h4⟩ <;>
            refine ⟨row, h1, h2, h3, ?_⟩
          · rw [hmemEq] at h4
            exact ((colHit_congr c _ x (y + row) (memVal c (ii + row)) 0
              (fun col _ _ => by rw [hsame row h1])).mp h4)
          · rw [hmemEq]
            exact ((colHit_congr c _ x (y + row) (memVal c (ii + row)) 0
              (fun col _ _ => by rw [hsame row h1])).mpr h4)
        have hRD : ∀ r cc,
            (RowDraw (drawCols c x (y + row0) (c.Memory (ii + row0)) 0)
              x y ii height (row0 + 1) r cc ↔
             RowDraw c x y ii height (row0 + 1) r cc) := by
          intro r cc
          unfold RowDraw
          constructor <;> rintro ⟨row, h1, h2, h3, h4, h5⟩ <;>
            refine ⟨row, h1, h2, h3, h4, ?_⟩
          · rw [hmemEq] at h5
            exact h5
          · rw [hmemEq]
            exact h5
        have hmv : memVal c (ii + row0) = c.Memory (ii + row0) := memVal_lt hmem
        refine ⟨c', ?_, ⟨aI2.trans aI, aPC2.trans aPC, aSP2.trans aSP,
          aDT2.trans aDT, aST2.trans aST, aMem2.trans aMem, aStk2.trans aStk,
          aKey2.trans aKey, aDF2.trans aDF,
          fun j hj => (aV2 j hj).trans (aV j hj)⟩, ⟨?_, ?_⟩, fun r cc => ⟨?_, ?_⟩⟩
        · rw [drawRows_step, if_pos hrow, if_pos hy, hm65, memRead_lt hmem]
          exact hEq
        · intro h
          rcases (rowHit_split c x y ii height row0).mp h with ⟨-, -, hch⟩ | hh
          · rw [hmv] at hch
            by_cases h2 : RowHit (drawCols c x (y + row0) (c.Memory (ii + row0)) 0)
                x y ii height (row0 + 1)
            · exact b1a h2
            · exact (b2a h2).trans (b1 hch)
          · exact b1a (hRH.mpr hh)
        · intro h
          refine (b2a fun hh => h ((rowHit_split c x y ii height row0).mpr
            (Or.inr (hRH.mp hh)))).trans ?_
          refine b2 fun hch => h ((rowHit_split c x y ii height row0).mpr
            (Or.inl ⟨hrow, hy, by rw [hmv]; exact hch⟩))
        · intro h
          rcases (rowDraw_split c x y ii height row0 r cc).mp h with
            ⟨-, -, hr, hcd⟩ | hh
          · have hnd : ¬ RowDraw (drawCols c x (y + row0) (c.Memory (ii + row0)) 0)
                x y ii height (row0 + 1) r cc := by
              rintro ⟨row, k1, k2, k3, k4, -⟩
              omega
            refine ((hC2 r cc).2 hnd).trans ?_
            rw [hmv] at hcd
            exact (hC r cc).1 ⟨hr, hcd⟩
          · refine ((hC2 r cc).1 ((hRD r cc).mpr hh)).trans ?_
            have hne : ¬ (r = y + row0 ∧
                ColDraw x (c.Memory (ii + row0)) 0 cc) := by
              rintro ⟨hr, -⟩
              obtain ⟨row, k1, k2, k3, k4, -⟩ := hh
              omega
            rw [(hC r cc).2 hne]
        · intro h
          have hnd : ¬ RowDraw (drawCols c x (y + row0) (c.Memory (ii + row0)) 0)
              x y ii height (row0 + 1) r cc := fun hh =>
            h ((rowDraw_split c x y ii height row0 r cc).mpr (Or.inr ((hRD r cc).mp hh)))
          refine ((hC2 r cc).2 hnd).trans ?_
          refine (hC r cc).2 fun hh =>
            h ((rowDraw_split c x y ii height row0 r cc).mpr
              (Or.inl ⟨hrow, hy, hh.1, by rw [hmv]; exact hh.2⟩))

/-- Shared characterisation of one `Dxyn` cycle, used by the draw claims. -/
theorem cycle_draw_spec (c : Chip8) (rnd rx ry n : Nat)
    (hrx : rx < 16) (hry : ry < 16) (hn : n < 16)
    (hpc : c.PC + 1 < 4096)
    (hhi : memVal c c.PC = 0xD0 + rx)
    (hlo : memVal c (c.PC + 1) = ry * 16 + n)
    (hii : c.I + n ≤ 4096) :
    ∃ c', EmulateCycle rnd c = some c' ∧
      ((RowHit c (c.V rx % 64) (c.V ry % 32) c.I n 0 → c'.V 15 = 1) ∧
       (¬ RowHit c (c.V rx % 64) (c.V ry % 32) c.I n 0 → c'.V 15 = 0)) ∧
      (∀ r cc,
        (RowDraw c (c.V rx % 64) (c.V ry % 32) c.I n 0 r cc →
          c'.Display r cc = !(c.Display r cc)) ∧
        (¬ RowDraw c (c.V rx % 64) (c.V ry % 32) c.I n 0 r cc →
          c'.Display r cc = c.Display r cc)) ∧
      c'.DrawFlag = true ∧
      c'.PC = c.PC + 2 ∧ c'.Memory = c.Memory ∧ c'.I = c.I ∧
      (∀ j, j ≠ 15 → c'.V j = c.V j) := by
  rw [EmulateCycle_eq_exec rnd c hpc, hhi, hlo]
  have e1 : ((0xD0 + rx) * 256 + (ry * 16 + n)) / 4096 = 13 := by omega
  have e3 : ((0xD0 + rx) * 256 + (ry * 16 + n)) / 256 % 16 = rx := by omega
  have e4 : ((0xD0 + rx) * 256 + (ry * 16 + n)) / 16 % 16 = ry := by omega
  have e5 : ((0xD0 + rx) * 256 + (ry * 16 + n)) % 16 = n := by omega
  unfold execOpcode
  simp only [e1, e3, e4, e5]
  rw [if_neg (by decide : ¬(13:Nat) = 0), if_neg (by decide : ¬(13:Nat) = 1),
      if_neg (by decide : ¬(13:Nat) = 2), if_neg (by decide : ¬(13:Nat) = 3),
      if_neg (by decide : ¬(13:Nat) = 4), if_neg (by decide : ¬(13:Nat) = 5),
      if_neg (by decide : ¬(13:Nat) = 6), if_neg (by decide : ¬(13:Nat) = 7),
      if_neg (by decide : ¬(13:Nat) = 8), if_neg (by decide : ¬(13:Nat) = 9),
      if_neg (by decide : ¬(13:Nat) = 10), if_neg (by decide : ¬(13:Nat) = 11),
      if_neg (by decide : ¬(13:Nat) = 12), if_pos trivial]
  obtain ⟨c2, hEq, ⟨aI, aPC, aSP, aDT, aST, aMem, aStk, aKey, aDF, aV⟩,
      ⟨b1, b2⟩, hC⟩ :=
    drawRows_spec n 0
      (setV { c with PC := (c.PC + 2) % 65536 } 15 0)
      (c.V rx % 64) (c.V ry % 32) c.I n (by omega) hii
  refine ⟨{ c2 with DrawFlag := true }, ?_, ⟨fun h => b1 h, fun h => b2 h⟩,
    fun r cc => ⟨fun h => (hC r cc).1 h, fun h => (hC r cc).2 h⟩,
    rfl, ?_, aMem, aI, ?_⟩
  · show (drawRows (setV { c with PC := (c.PC + 2) % 65536 } 15 0)
        (c.V rx % 64) (c.V ry % 32) c.I n 0).bind
        (fun c2 => some { c2 with DrawFlag := true }) = _
    rw [hEq]
    rfl
  · exact aPC.trans (by show (c.PC + 2) % 65536 = c.PC + 2; omega)
  · intro j hj
    refine (aV j hj).trans ?_
    show (if j = 15 then 0 else c.V j) = c.V j
    rw [if_neg hj]

/-- C7: `Dxyn` draws the `n`-row sprite read from memory at the index
register at `(V[x] mod 64, V[y] mod 32)`: rows and columns falling outside
the 64x32 grid are clipped (`RowDraw` demands `y + row < 32` and
`x + col < 64` and never wraps), each drawn bit XORs its display cell, the
flag register reports whether any set pixel was flipped to unset (a
collision), and the draw flag is set unconditionally. -/
theorem draw_sprite_semantics (c : Chip8) (rnd rx ry n : Nat)
    (hrx : rx < 16) (hry : ry < 16) (hn : n < 16)
    (hpc : c.PC + 1 < 4096)
    (hhi : memVal c c.PC = 0xD0 + rx)
    (hlo : memVal c (c.PC + 1) = ry * 16 + n)
    (hii : c.I + n ≤ 4096) :
    ∃ c', EmulateCycle rnd c = some c' ∧
      ((RowHit c (c.V rx % 64) (c.V ry % 32) c.I n 0 → c'.V 15 = 1) ∧
       (¬ RowHit c (c.V rx % 64) (c.V ry % 32) c.I n 0 → c'.V 15 = 0)) ∧
      (∀ r cc,
        (RowDraw c (c.V rx % 64) (c.V ry % 32) c.I n 0 r cc →
          c'.Display r cc = !(c.Display r cc)) ∧
        (¬ RowDraw c (c.V rx % 64) (c.V ry % 32) c.I n 0 r cc →
          c'.Display r cc = c.Display r cc)) ∧
      c'.DrawFlag = true ∧
      c'.PC = c.PC + 2 ∧ c'.Memory = c.Memory ∧ c'.I = c.I ∧
      (∀ j, j ≠ 15 → c'.V j = c.V j) :=
  cycle_draw_spec c rnd rx ry n hrx hry hn hpc hhi hlo hii

/-- C8 (amended): drawing the same visible single-row sprite twice at the
same coordinates on a cleared display reports no collision on the first
draw, a collision on the second, and restores the cleared display. -/
theorem draw_twice_restores (c : Chip8) (rnd rnd2 rx ry : Nat)
    (hrx : rx < 16) (hry : ry < 16) (hrx15 : rx ≠ 15) (hry15 : ry ≠ 15)
    (hpc : c.PC + 3 < 4096)
    (hhi : memVal c c.PC = 0xD0 + rx)
    (hlo : memVal c (c.PC + 1) = ry * 16 + 1)
    (hhi2 : memVal c (c.PC + 2) = 0xD0 + rx)
    (hlo2 : memVal c (c.PC + 3) = ry * 16 + 1)
    (hii : c.I + 1 ≤ 4096)
    (hclear : ∀ r cc, c.Display r cc = false)
    (hvis : ∃ col, col < 8 ∧ c.V rx % 64 + col < 64 ∧
      Nat.land (memVal c c.I) (128 >>> col) ≠ 0) :
    ∃ c1 c2, EmulateCycle rnd c = some c1 ∧ EmulateCycle rnd2 c1 = some c2 ∧
      c1.V 15 = 0 ∧ c2.V 15 = 1 ∧ (∀ r cc, c2.Display r cc = false) := by
  obtain ⟨c1, hEq1, ⟨B1, B2⟩, HC1, hDF1, hPC1, hMem1, hI1, hV1⟩ :=
    cycle_draw_spec c rnd rx ry 1 hrx hry (by omega) (by omega) hhi hlo hii
  have hx : c1.V rx = c.V rx := hV1 rx hrx15
  have hy : c1.V ry = c.V ry := hV1 ry hry15
  have hmv : ∀ a, memVal c1 a = memVal c a := by
    intro a
    unfold memVal
    rw [hMem1]
  have hnohit : ¬ RowHit c (c.V rx % 64) (c.V ry % 32) c.I 1 0 := by
    rintro ⟨row, -, -, -, col, -, -, -, -, h5⟩
    rw [hclear] at h5
    exact Bool.false_ne_true h5
  have hc1v : c1.V 15 = 0 := B2 hnohit
  have hpc1v : c1.PC + 1 < 4096 := by rw [hPC1]; omega
  have hhiv : memVal c1 c1.PC = 0xD0 + rx := by rw [hPC1, hmv]; exact hhi2
  have hlov : memVal c1 (c1.PC + 1) = ry * 16 + 1 := by
    rw [hPC1, show c.PC + 2 + 1 = c.PC + 3 from by omega, hmv]
    exact hlo2
  have hiiv : c1.I + 1 ≤ 4096 := by rw [hI1]; exact hii
  obtain ⟨c2, hEq2, ⟨B1a, B2a⟩, HC2, hDF2, hPC2, hMem2, hI2, hV2⟩ :=
    cycle_draw_spec c1 rnd2 rx ry 1 hrx hry (by omega) hpc1v hhiv hlov hiiv
  have hRD : ∀ r cc, RowDraw c1 (c1.V rx % 64) (c1.V ry % 32) c1.I 1 0 r cc ↔
      RowDraw c (c.V rx % 64) (c.V ry % 32) c.I 1 0 r cc := by
    intro r cc
    rw [hx, hy, hI1]
    unfold RowDraw
    constructor
    · rintro ⟨row, h1, h2, h3, h4, h5⟩
      rw [hmv] at h5
      exact ⟨row, h1, h2, h3, h4, h5⟩
    · rintro ⟨row, h1, h2, h3, h4, h5⟩
      refine ⟨row, h1, h2, h3, h4, ?_⟩
      rw [hmv]
      exact h5
  obtain ⟨col, hc8, hcx, hcbit⟩ := hvis
  have hdrawn : RowDraw c (c.V rx % 64) (c.V ry % 32) c.I 1 0
      (c.V ry % 32) (c.V rx % 64 + col) := by
    refine ⟨0, Nat.le_refl _, Nat.zero_lt_one, by omega, by omega, ?_⟩
    exact ⟨col, Nat.zero_le _, hc8, rfl, hcx, hcbit⟩
  have hc1disp : c1.Display (c.V ry % 32) (c.V rx % 64 + col) = true := by
    rw [(HC1 _ _).1 hdrawn, hclear]
    rfl
  have hhit : RowHit c1 (c1.V rx % 64) (c1.V ry % 32) c1.I 1 0 := by
    refine ⟨0, Nat.le_refl _, Nat.zero_lt_one, ?_, ?_⟩
    · rw [hy]
      omega
    · refine ⟨col, Nat.zero_le _, hc8, ?_, ?_, ?_⟩
      · rw [hx]
        exact hcx
      · rw [hmv, hI1]
        exact hcbit
      · rw [hy, hx]
        exact hc1disp
  have hc2v : c2.V 15 = 1 := B1a hhit
  refine ⟨c1, c2, hEq1, hEq2, hc1v, hc2v, ?_⟩
  intro r cc
  by_cases hd : RowDraw c (c.V rx % 64) (c.V ry % 32) c.I 1 0 r cc
  · rw [(HC2 r cc).1 ((hRD r cc).mpr hd), (HC1 r cc).1 hd, hclear]
    rfl
  · rw [(HC2 r cc).2 (fun hh => hd ((hRD r cc).mp hh)), (HC1 r cc).2 hd, hclear]

/-- C8 (counterexample): drawing an all-zero sprite row twice draws no
pixel, so the second draw reports no collision: the flag register ends at
0, not 1 as the claim requires. -/
theorem draw_twice_zero_sprite_cex :
    ((EmulateCycle 0 c8State).bind (EmulateCycle 0)).map (fun c => c.V 15)
      = some 0 ∧
    ((EmulateCycle 0 c8State).bind (EmulateCycle 0)).map (fun c => c.V 15)
      ≠ some 1 := by
  obtain ⟨c1, hEq1, ⟨B1, B2⟩, HC1, hDF1, hPC1, hMem1, hI1, hV1⟩ :=
    cycle_draw_spec c8State 0 0 0 1 (by omega) (by omega) (by omega)
      (by decide) rfl rfl (by decide)
  have hmv : ∀ a, memVal c1 a = memVal c8State a := by
    intro a
    unfold memVal
    rw [hMem1]
  have hzero : ¬ RowHit c8State (c8State.V 0 % 64) (c8State.V 0 % 32)
      c8State.I 1 0 := by
    rintro ⟨row, -, hr2, -, col, -, -, -, h4, -⟩
    have hrow : row = 0 := by omega
    subst hrow
    apply h4
    rw [show memVal c8State (c8State.I + 0) = 0 from rfl]
    exact Nat.zero_and _
  have hv1 : c1.V 15 = 0 := B2 hzero
  have hpc1v : c1.PC + 1 < 4096 := by rw [hPC1]; decide
  have hhiv : memVal c1 c1.PC = 0xD0 + 0 := by rw [hPC1, hmv]; rfl
  have hlov : memVal c1 (c1.PC + 1) = 0 * 16 + 1 := by rw [hPC1, hmv]; rfl
  have hiiv : c1.I + 1 ≤ 4096 := by rw [hI1]; decide
  obtain ⟨c2, hEq2, ⟨B1a, B2a⟩, HC2, hDF2, hPC2, hMem2, hI2, hV2⟩ :=
    cycle_draw_spec c1 0 0 0 1 (by omega) (by omega) (by omega)
      hpc1v hhiv hlov hiiv
  have hzero2 : ¬ RowHit c1 (c1.V 0 % 64) (c1.V 0 % 32) c1.I 1 0 := by
    rintro ⟨row, -, hr2, -, col, -, -, -, h4, -⟩
    have hrow : row = 0 := by omega
    subst hrow
    apply h4
    rw [hmv, hI1, show memVal c8State (c8State.I + 0) = 0 from rfl]
    exact Nat.zero_and _
  have hv2 : c2.V 15 = 0 := B2a hzero2
  have hmain : ((EmulateCycle 0 c8State).bind (EmulateCycle 0)).map
      (fun c => c.V 15) = some 0 := by
    rw [hEq1]
    show (EmulateCycle 0 c1).map (fun c => c.V 15) = some 0
    rw [hEq2]
    show some (c2.V 15) = some 0
    rw [hv2]
  exact ⟨hmain, by rw [hmain]; decide⟩

/-- C7 witness: `D011` (one-row sprite at `(V0, V1) = (3, 5)` from the font
table at `I = 0`) on a fresh machine. -/
theorem draw_sprite_semantics_witness :
    ∃ c', EmulateCycle 0 c7State = some c' ∧
      ((RowHit c7State (c7State.V 0 % 64) (c7State.V 1 % 32) c7State.I 1 0 →
        c'.V 15 = 1) ∧
       (¬ RowHit c7State (c7State.V 0 % 64) (c7State.V 1 % 32) c7State.I 1 0 →
        c'.V 15 = 0)) ∧
      (∀ r cc,
        (RowDraw c7State (c7State.V 0 % 64) (c7State.V 1 % 32) c7State.I 1 0 r cc →
          c'.Display r cc = !(c7State.Display r cc)) ∧
        (¬ RowDraw c7State (c7State.V 0 % 64) (c7State.V 1 % 32) c7State.I 1 0 r cc →
          c'.Display r cc = c7State.Display r cc)) ∧
      c'.DrawFlag = true ∧
      c'.PC = c7State.PC + 2 ∧ c'.Memory = c7State.Memory ∧ c'.I = c7State.I ∧
      (∀ j, j ≠ 15 → c'.V j = c7State.V j) :=
  draw_sprite_semantics c7State 0 0 1 1 (by omega) (by omega) (by omega)
    (by decide) rfl rfl (by decide)

/-- C8 witness: `D011` twice on a fresh machine drawing font glyph row
`0xF0` at `(0, 0)`. -/
theorem draw_twice_restores_witness :
    ∃ c1 c2, EmulateCycle 0 c8wState = some c1 ∧ EmulateCycle 0 c1 = some c2 ∧
      c1.V 15 = 0 ∧ c2.V 15 = 1 ∧ (∀ r cc, c2.Display r cc = false) :=
  draw_twice_restores c8wState 0 0 0 1 (by omega) (by omega) (by omega)
    (by omega) (by decide) rfl rfl rfl rfl (by decide) (fun r cc => rfl)
    ⟨0, by omega, by decide, by decide⟩
